import Mathlib

/-!
Shallow embedding of the recipe recommender application (`app.py`).

The recipe collection is a list of records; `recommend_recipes` applies the
categorical pass, the numeric range pass and the ingredient pass in sequence,
exactly as the source chains its boolean-mask filters.  The ingredient matcher
embeds the call `re.search(r'\b' + re.escape(term) + r'\b', ingredient,
re.IGNORECASE)` at the character level for the ASCII range: `\b` is the word
boundary between a word character (`[A-Za-z0-9_]`) and a non-word character
or string edge, and `re.escape` makes the term literal, so the whole pattern
is a literal case-insensitive occurrence flanked by two boundaries.
-/

/-- A recipe record as produced by `load_recipes`: `ingredients_list` is the
normalized (trimmed, lower-cased) ingredient list derived from `ingredients`
at load time. -/
structure Recipe where
  name : String
  cuisine : String
  meal_type : String
  difficulty : String
  prep_time_minutes : Int
  cook_time_minutes : Int
  ingredients : List String
  ingredients_list : List String
  image_url : Option String := none
  instructions : String := ""
  deriving Repr, DecidableEq

/-- ASCII word character, the `\w` class used by the regex `\b` anchor:
`[A-Za-z0-9_]`. -/
def isWordChar (c : Char) : Bool :=
  decide (65 ≤ c.toNat ∧ c.toNat ≤ 90) || decide (97 ≤ c.toNat ∧ c.toNat ≤ 122) ||
    decide (48 ≤ c.toNat ∧ c.toNat ≤ 57) || decide (c.toNat = 95)

/-- Case-insensitive character comparison, modelling `re.IGNORECASE` on the
ASCII letters (both sides folded with `Char.toLower`). -/
def charIEq (a b : Char) : Bool := a.toLower == b.toLower

/-- `iStarts t l`: the term `t` is a case-insensitive leading segment of `l`,
i.e. the literal (escaped) pattern matches at the current position. -/
def iStarts : List Char → List Char → Bool
  | [], _ => true
  | _ :: _, [] => false
  | a :: ts, b :: bs => charIEq a b && iStarts ts bs

/-- The character at position `i` of `s` is a word character (false past the
end of the string). -/
def wAt (s : List Char) (i : Nat) : Bool :=
  match s[i]? with
  | some c => isWordChar c
  | none => false

/-- The character just before position `i` of `s` is a word character (false
at the start of the string). -/
def prevW (s : List Char) : Nat → Bool
  | 0 => false
  | i + 1 => wAt s i

/-- The regex word boundary `\b` holds at position `i` of `s`: exactly one of
the two adjacent positions holds a word character. -/
def boundaryAt (s : List Char) (i : Nat) : Bool := prevW s i != wAt s i

/-- `re.search(r'\b' + re.escape(t) + r'\b', s, re.IGNORECASE)` succeeds:
some position `i` carries a `\b` boundary, a literal case-insensitive
occurrence of `t`, and a `\b` boundary after the occurrence (line 72 of the
source). -/
def reSearchWB (t s : List Char) : Bool :=
  (List.range (s.length + 1)).any fun i =>
    boundaryAt s i && iStarts t (s.drop i) && boundaryAt s (i + t.length)

/-- Modelled from the spec's words, for comparison with `reSearchWB`: the term
occurs in the ingredient as a substring that is not immediately preceded or
followed by an alphanumeric/underscore character. -/
def specTermOccurs (t s : List Char) : Bool :=
  (List.range (s.length + 1)).any fun i =>
    iStarts t (s.drop i) && !prevW s i && !wAt s (i + t.length)

/-- Python `str.split(',')`: split on every comma, keeping empty pieces. -/
def splitComma : List Char → List (List Char)
  | [] => [[]]
  | c :: cs =>
    if c = ',' then [] :: splitComma cs
    else
      match splitComma cs with
      | [] => [[c]]
      | g :: gs => (c :: g) :: gs

/-- Python `str.strip()`: whitespace removed from both ends. -/
def trimChars (l : List Char) : List Char :=
  ((l.dropWhile Char.isWhitespace).reverse.dropWhile Char.isWhitespace).reverse

/-- Python `str.lower()` on the ASCII letters. -/
def lowerChars (l : List Char) : List Char := l.map Char.toLower

/-- The tokenization of the ingredient query, line 66 of the source:
`[s.strip().lower() for s in search_ingredients_str.split(',') if s.strip()]`. -/
def tokenize (q : String) : List (List Char) :=
  ((splitComma q.data).filter fun s => !(trimChars s).isEmpty).map
    fun s => lowerChars (trimChars s)

/-- A guarded narrowing pass: filter with `p` when the guard holds, otherwise
leave the candidate list untouched. -/
def condFilter (b : Prop) [Decidable b] (p : Recipe → Bool) (l : List Recipe) : List Recipe :=
  if b then l.filter p else l

/-- Categorical pass of `recommend_recipes` (lines 49-54): each of the three
equality filters is applied only when its criterion is not the wildcard,
cuisine first, then meal type, then difficulty. -/
def catFilter (df : List Recipe) (sc sm sd : String) : List Recipe :=
  condFilter (sd ≠ "Any") (fun r => r.difficulty == sd)
    (condFilter (sm ≠ "Any") (fun r => r.meal_type == sm)
      (condFilter (sc ≠ "Any") (fun r => r.cuisine == sc) df))

/-- Numeric range pass of `recommend_recipes` (lines 57-62). -/
def timeFilter (df : List Recipe) (minP maxP minC maxC : Int) : List Recipe :=
  df.filter fun r =>
    minP ≤ r.prep_time_minutes && r.prep_time_minutes ≤ maxP &&
      minC ≤ r.cook_time_minutes && r.cook_time_minutes ≤ maxC

/-- Line 72 of the source: a recipe matches when every search term matches at
least one of its normalized ingredients. -/
def ingMatch (terms : List (List Char)) (r : Recipe) : Bool :=
  terms.all fun t => r.ingredients_list.any fun ing => reSearchWB t ing.data

/-- Ingredient pass of `recommend_recipes` (lines 64-74): skipped when the raw
query string is empty, and again when tokenization yields no terms. -/
def ingFilter (df : List Recipe) (q : String) : List Recipe :=
  if q ≠ "" then condFilter (tokenize q ≠ []) (ingMatch (tokenize q)) df
  else df

/-- `recommend_recipes` (lines 42-76): the three passes chained over the
collection, in the order of the source. -/
def recommend_recipes (df : List Recipe) (sc sm sd : String)
    (minP maxP minC maxC : Int) (q : String) : List Recipe :=
  ingFilter (timeFilter (catFilter df sc sm sd) minP maxP minC maxC) q

/-- Lexicographic order on character lists by code point, the order Python's
`sorted` uses on strings. -/
def lexLe : List Char → List Char → Bool
  | [], _ => true
  | _ :: _, [] => false
  | a :: ts, b :: bs =>
    if a.toNat < b.toNat then true
    else if b.toNat < a.toNat then false
    else lexLe ts bs

/-- The sort order of `sorted` on strings: lexicographic by code point. -/
abbrev strRel (a b : String) : Prop := lexLe a.data b.data = true

/-- `get_unique_values` (lines 37-40): `['Any'] + sorted(df[column].unique())`
on a non-empty collection, `['Any']` otherwise. -/
def get_unique_values (df : List Recipe) (col : Recipe → String) : List String :=
  if !df.isEmpty then "Any" :: List.insertionSort strRel (df.map col).dedup
  else ["Any"]

/-- The Surprise Me handler (lines 143-149): on a non-empty collection it
draws one recipe with `sample(1)`, otherwise it warns and produces nothing.
The random draw of `sample` is modelled by an arbitrary index `k`. -/
def pick_random (df : List Recipe) (k : Nat) : Option Recipe :=
  if df.isEmpty then none else df[k % df.length]?

/-- Concrete recipe used by witnesses (recipe A of the spec's scenario). -/
def recipeA : Recipe :=
  { name := "A", cuisine := "Italian", meal_type := "Dinner", difficulty := "Easy",
    prep_time_minutes := 10, cook_time_minutes := 20,
    ingredients := ["egg", "flour"], ingredients_list := ["egg", "flour"] }

/-- Concrete recipe used by witnesses (recipe B of the spec's scenario). -/
def recipeB : Recipe :=
  { name := "B", cuisine := "Mexican", meal_type := "Dinner", difficulty := "Medium",
    prep_time_minutes := 15, cook_time_minutes := 25,
    ingredients := ["chicken", "garlic"], ingredients_list := ["chicken", "garlic"] }

/-- Concrete recipe used by witnesses (recipe C of the spec's scenario). -/
def recipeC : Recipe :=
  { name := "C", cuisine := "Italian", meal_type := "Dinner", difficulty := "Easy",
    prep_time_minutes := 30, cook_time_minutes := 5,
    ingredients := ["eggplant", "oil"], ingredients_list := ["eggplant", "oil"] }

/-- Concrete recipe with an empty ingredient list, used by witnesses. -/
def recipeD : Recipe :=
  { name := "D", cuisine := "French", meal_type := "Dessert", difficulty := "Hard",
    prep_time_minutes := 5, cook_time_minutes := 5,
    ingredients := [], ingredients_list := [] }

theorem lexLe_total (l₁ l₂ : List Char) : lexLe l₁ l₂ = true ∨ lexLe l₂ l₁ = true := by
  induction l₁ generalizing l₂ with
  | nil => left; rfl
  | cons a ts ih =>
    cases l₂ with
    | nil => right; rfl
    | cons b bs =>
      rcases Nat.lt_trichotomy a.toNat b.toNat with h | h | h
      · left; simp [lexLe, h]
      · rcases ih bs with h2 | h2
        · left; simp [lexLe, h, h2]
        · right; simp [lexLe, h, h2]
      · right; simp [lexLe, h]

theorem lexLe_trans {l₁ l₂ l₃ : List Char} (h₁ : lexLe l₁ l₂ = true)
    (h₂ : lexLe l₂ l₃ = true) : lexLe l₁ l₃ = true := by
  induction l₁ generalizing l₂ l₃ with
  | nil => rfl
  | cons a ts ih =>
    cases l₂ with
    | nil => simp [lexLe] at h₁
    | cons b bs =>
      cases l₃ with
      | nil => simp [lexLe] at h₂
      | cons c cs =>
        simp only [lexLe] at h₁ h₂ ⊢
        split_ifs at h₁ h₂ ⊢ with g1 g2 g3 g4 g5 g6 <;>
          first
            | rfl
            | omega
            | exact ih h₁ h₂

instance : IsTotal String strRel := ⟨fun a b => lexLe_total a.data b.data⟩

instance : IsTrans String strRel := ⟨fun _ _ _ h₁ h₂ => lexLe_trans h₁ h₂⟩

theorem tokenize_empty : tokenize "" = [] := rfl

theorem mem_condFilter {b : Prop} [Decidable b] {p : Recipe → Bool} {l : List Recipe}
    {r : Recipe} (h : r ∈ condFilter b p l) : r ∈ l ∧ (b → p r = true) := by
  unfold condFilter at h
  by_cases hb : b
  · rw [if_pos hb] at h
    exact ⟨(List.mem_filter.mp h).1, fun _ => (List.mem_filter.mp h).2⟩
  · rw [if_neg hb] at h
    exact ⟨h, fun hc => absurd hc hb⟩

theorem condFilter_sublist (b : Prop) [Decidable b] (p : Recipe → Bool) (l : List Recipe) :
    List.Sublist (condFilter b p l) l := by
  unfold condFilter
  by_cases hb : b
  · rw [if_pos hb]; exact List.filter_sublist l
  · rw [if_neg hb]

theorem condFilter_false {b : Prop} [Decidable b] (hb : ¬b) (p : Recipe → Bool)
    (l : List Recipe) : condFilter b p l = l := if_neg hb

theorem condFilter_nil (b : Prop) [Decidable b] (p : Recipe → Bool) :
    condFilter b p [] = [] := by
  unfold condFilter
  split <;> rfl

theorem mem_timeFilter {df : List Recipe} {minP maxP minC maxC : Int} {r : Recipe} :
    r ∈ timeFilter df minP maxP minC maxC ↔
      r ∈ df ∧ minP ≤ r.prep_time_minutes ∧ r.prep_time_minutes ≤ maxP ∧
        minC ≤ r.cook_time_minutes ∧ r.cook_time_minutes ≤ maxC := by
  unfold timeFilter
  rw [List.mem_filter]
  simp [and_assoc]

theorem ingMatch_iff {terms : List (List Char)} {r : Recipe} :
    ingMatch terms r = true ↔
      ∀ t ∈ terms, ∃ ing ∈ r.ingredients_list, reSearchWB t ing.data = true := by
  unfold ingMatch
  simp [List.all_eq_true, List.any_eq_true]

theorem mem_ingFilter {df : List Recipe} {q : String} {r : Recipe}
    (h : r ∈ ingFilter df q) :
    r ∈ df ∧ (tokenize q ≠ [] → ingMatch (tokenize q) r = true) := by
  unfold ingFilter at h
  by_cases hq : q = ""
  · subst hq
    rw [if_neg (by simp)] at h
    exact ⟨h, fun ht => absurd tokenize_empty ht⟩
  · rw [if_pos hq] at h
    exact mem_condFilter h

theorem ingFilter_sublist (df : List Recipe) (q : String) :
    List.Sublist (ingFilter df q) df := by
  unfold ingFilter
  by_cases hq : q = ""
  · rw [if_neg (by simp [hq])]
  · rw [if_pos hq]
    exact condFilter_sublist _ _ _

theorem ingFilter_nil (q : String) : ingFilter [] q = [] := by
  unfold ingFilter
  split
  · exact condFilter_nil _ _
  · rfl

theorem mem_catFilter {df : List Recipe} {sc sm sd : String} {r : Recipe}
    (h : r ∈ catFilter df sc sm sd) :
    r ∈ df ∧ (sc ≠ "Any" → r.cuisine = sc) ∧ (sm ≠ "Any" → r.meal_type = sm) ∧
      (sd ≠ "Any" → r.difficulty = sd) := by
  unfold catFilter at h
  obtain ⟨h1, hd⟩ := mem_condFilter h
  obtain ⟨h2, hm⟩ := mem_condFilter h1
  obtain ⟨h3, hc⟩ := mem_condFilter h2
  exact ⟨h3, fun hne => eq_of_beq (hc hne), fun hne => eq_of_beq (hm hne),
    fun hne => eq_of_beq (hd hne)⟩

theorem mem_recommend_ing {df : List Recipe} {sc sm sd : String}
    {minP maxP minC maxC : Int} {q : String} {r : Recipe} (h : tokenize q ≠ []) :
    r ∈ recommend_recipes df sc sm sd minP maxP minC maxC q ↔
      r ∈ timeFilter (catFilter df sc sm sd) minP maxP minC maxC ∧
        ∀ t ∈ tokenize q, ∃ ing ∈ r.ingredients_list, reSearchWB t ing.data = true := by
  unfold recommend_recipes ingFilter condFilter
  have hq : q ≠ "" := fun he => h (by rw [he]; exact tokenize_empty)
  rw [if_pos hq, if_pos h, List.mem_filter, ingMatch_iff]

theorem toNat_ofNat_valid {n : Nat} (h : n.isValidChar) : (Char.ofNat n).toNat = n := by
  unfold Char.ofNat
  rw [dif_pos h]
  rfl

theorem isWordChar_toLower (c : Char) : isWordChar c.toLower = isWordChar c := by
  simp only [Char.toLower]
  by_cases h : c.toNat ≥ 65 ∧ c.toNat ≤ 90
  · rw [if_pos h]
    have hv : (c.toNat + 32).isValidChar := Or.inl (by omega)
    unfold isWordChar
    rw [toNat_ofNat_valid hv, Bool.eq_iff_iff]
    simp only [Bool.or_eq_true, decide_eq_true_eq]
    omega
  · rw [if_neg h]

theorem charIEq_word {a b : Char} (h : charIEq a b = true) :
    isWordChar a = isWordChar b := by
  unfold charIEq at h
  have h2 : a.toLower = b.toLower := by simpa using h
  rw [← isWordChar_toLower a, ← isWordChar_toLower b, h2]

theorem iStarts_get {t l : List Char} (h : iStarts t l = true) :
    ∀ (j : Nat) (a : Char), t[j]? = some a →
      ∃ c, l[j]? = some c ∧ charIEq a c = true := by
  induction t generalizing l with
  | nil => intro j a hj; simp at hj
  | cons x ts ih =>
    cases l with
    | nil => simp [iStarts] at h
    | cons y ls =>
      simp only [iStarts, Bool.and_eq_true] at h
      intro j a hj
      cases j with
      | zero =>
        simp only [List.getElem?_cons_zero, Option.some.injEq] at hj
        subst hj
        exact ⟨y, by simp, h.1⟩
      | succ n =>
        simp only [List.getElem?_cons_succ] at hj ⊢
        exact ih h.2 n a hj

theorem wAt_eq {s : List Char} {i : Nat} {c : Char} (h : s[i]? = some c) :
    wAt s i = isWordChar c := by
  unfold wAt
  rw [h]

theorem prevW_succ (s : List Char) (i : Nat) : prevW s (i + 1) = wAt s i := rfl

theorem wb_cond_eq {t s : List Char} {a b : Char}
    (h0 : t[0]? = some a) (hwa : isWordChar a = true)
    (h1 : t[t.length - 1]? = some b) (hwb : isWordChar b = true) (i : Nat) :
    (boundaryAt s i && iStarts t (s.drop i) && boundaryAt s (i + t.length)) =
      (iStarts t (s.drop i) && !prevW s i && !wAt s (i + t.length)) := by
  cases hp : iStarts t (s.drop i) with
  | false => simp [hp]
  | true =>
    obtain ⟨c, hc, hic⟩ := iStarts_get hp 0 a h0
    have hsi : s[i]? = some c := by
      have hd := List.getElem?_drop s i 0
      rw [Nat.add_zero] at hd
      rw [← hd]
      exact hc
    have hwi : wAt s i = true := by
      rw [wAt_eq hsi, ← charIEq_word hic]
      exact hwa
    have ht : t ≠ [] := by
      intro he
      rw [he] at h0
      simp at h0
    obtain ⟨d, hdrop, hid⟩ := iStarts_get hp (t.length - 1) b h1
    have hsd : s[i + (t.length - 1)]? = some d := by
      have hd2 := List.getElem?_drop s i (t.length - 1)
      rw [← hd2]
      exact hdrop
    have hplen : prevW s (i + t.length) = true := by
      have hrw : i + t.length = (i + (t.length - 1)) + 1 := by
        have := List.length_pos.mpr ht
        omega
      rw [hrw, prevW_succ, wAt_eq hsd, ← charIEq_word hid]
      exact hwb
    unfold boundaryAt
    rw [hwi, hplen]
    cases hA : prevW s i <;> cases hB : wAt s (i + t.length) <;> simp [hA, hB]

theorem reSearchWB_eq_spec {t s : List Char} {a b : Char}
    (h0 : t[0]? = some a) (hwa : isWordChar a = true)
    (h1 : t[t.length - 1]? = some b) (hwb : isWordChar b = true) :
    reSearchWB t s = specTermOccurs t s := by
  unfold reSearchWB specTermOccurs
  congr 1
  funext i
  exact wb_cond_eq h0 hwa h1 hwb i

/-- Claim C1 (soundness of filtering): every recipe in the result of
`recommend_recipes` satisfies all active predicates of the criteria —
case-sensitive equality on cuisine, meal type and difficulty whenever the
criterion is not "Any", inclusive membership in both time ranges, and, when
the tokenized search-term list is non-empty, a word-boundary match of every
term against at least one ingredient. -/
theorem recommend_recipes_sound (df : List Recipe) (sc sm sd : String)
    (minP maxP minC maxC : Int) (q : String) (r : Recipe)
    (h : r ∈ recommend_recipes df sc sm sd minP maxP minC maxC q) :
    (sc ≠ "Any" → r.cuisine = sc) ∧ (sm ≠ "Any" → r.meal_type = sm) ∧
      (sd ≠ "Any" → r.difficulty = sd) ∧
      minP ≤ r.prep_time_minutes ∧ r.prep_time_minutes ≤ maxP ∧
      minC ≤ r.cook_time_minutes ∧ r.cook_time_minutes ≤ maxC ∧
      (tokenize q ≠ [] →
        ∀ t ∈ tokenize q, ∃ ing ∈ r.ingredients_list, reSearchWB t ing.data = true) := by
  unfold recommend_recipes at h
  obtain ⟨h1, hing⟩ := mem_ingFilter h
  rw [mem_timeFilter] at h1
  obtain ⟨h2, hT1, hT2, hT3, hT4⟩ := h1
  obtain ⟨h3, hcui, hmea, hdif⟩ := mem_catFilter h2
  exact ⟨hcui, hmea, hdif, hT1, hT2, hT3, hT4, fun ht => ingMatch_iff.mp (hing ht)⟩

/-- Witness for C1: the soundness theorem applied to the spec's scenario,
recipe A in the result of the Italian/egg query. -/
theorem recommend_recipes_sound_witness :
    ("Italian" ≠ "Any" → recipeA.cuisine = "Italian") ∧
      ("Any" ≠ "Any" → recipeA.meal_type = "Any") ∧
      ("Any" ≠ "Any" → recipeA.difficulty = "Any") ∧
      (0 : Int) ≤ recipeA.prep_time_minutes ∧ recipeA.prep_time_minutes ≤ 60 ∧
      (0 : Int) ≤ recipeA.cook_time_minutes ∧ recipeA.cook_time_minutes ≤ 60 ∧
      (tokenize "egg" ≠ [] →
        ∀ t ∈ tokenize "egg", ∃ ing ∈ recipeA.ingredients_list,
          reSearchWB t ing.data = true) :=
  recommend_recipes_sound [recipeA, recipeB, recipeC] "Italian" "Any" "Any"
    0 60 0 60 "egg" recipeA (by decide)

/-- Claim C2 (identity criteria): with all categorical criteria set to "Any",
time ranges covering every recipe of the collection, and an empty ingredient
query, `recommend_recipes` returns the whole collection unchanged. -/
theorem recommend_recipes_identity (df : List Recipe) (minP maxP minC maxC : Int)
    (h : ∀ r ∈ df, minP ≤ r.prep_time_minutes ∧ r.prep_time_minutes ≤ maxP ∧
          minC ≤ r.cook_time_minutes ∧ r.cook_time_minutes ≤ maxC) :
    recommend_recipes df "Any" "Any" "Any" minP maxP minC maxC "" = df := by
  unfold recommend_recipes
  have hcat : catFilter df "Any" "Any" "Any" = df := by
    unfold catFilter
    rw [condFilter_false (by simp), condFilter_false (by simp), condFilter_false (by simp)]
  have htime : timeFilter df minP maxP minC maxC = df := by
    unfold timeFilter
    apply List.filter_eq_self.mpr
    intro a ha
    obtain ⟨p1, p2, p3, p4⟩ := h a ha
    simp [p1, p2, p3, p4]
  rw [hcat, htime]
  unfold ingFilter
  rw [if_neg (by simp)]

/-- Witness for C2: the identity theorem applied to the three-recipe
collection with the full 0..60 ranges. -/
theorem recommend_recipes_identity_witness :
    recommend_recipes [recipeA, recipeB, recipeC] "Any" "Any" "Any" 0 60 0 60 "" =
      [recipeA, recipeB, recipeC] :=
  recommend_recipes_identity [recipeA, recipeB, recipeC] 0 60 0 60 (by decide)

/-- Claim C3 (stable filter): the result of `recommend_recipes` is a
subsequence of the input collection — no foreign recipes, no added
duplicates, and the surviving recipes keep their original relative order. -/
theorem recommend_recipes_stable (df : List Recipe) (sc sm sd : String)
    (minP maxP minC maxC : Int) (q : String) :
    List.Sublist (recommend_recipes df sc sm sd minP maxP minC maxC q) df := by
  unfold recommend_recipes
  have h1 : List.Sublist (catFilter df sc sm sd) df := by
    unfold catFilter
    exact (condFilter_sublist _ _ _).trans
      ((condFilter_sublist _ _ _).trans (condFilter_sublist _ _ _))
  have h2 : List.Sublist (timeFilter (catFilter df sc sm sd) minP maxP minC maxC)
      (catFilter df sc sm sd) := List.filter_sublist _
  exact (ingFilter_sublist _ q).trans (h2.trans h1)

/-- Claim C4, counterexample: the claim's characterization — a term matches an
ingredient iff it occurs as a substring not adjacent to a word character — is
false as stated: for the term "+" in the ingredient "a+b" the program's
regex matcher succeeds (the `\b` anchors hold because "+" is a non-word
character next to word characters) while no occurrence avoids adjacency to a
word character. -/
theorem word_boundary_claim_counterexample :
    reSearchWB "+".data "a+b".data = true ∧
      specTermOccurs "+".data "a+b".data = false ∧
      reSearchWB "+".data "a+b".data ≠ specTermOccurs "+".data "a+b".data := by
  refine ⟨by decide, by decide, by decide⟩

/-- Claim C4 (amended): for every search term whose first and last characters
are word characters (alphanumeric/underscore), the matcher agrees exactly with
the spec's characterization — the term matches iff it occurs as a substring
not immediately preceded or followed by an alphanumeric/underscore character;
in particular "egg" matches "egg" and "egg yolk" but not "eggplant". -/
theorem word_boundary_match_spec (t s : List Char) (a b : Char)
    (h0 : t[0]? = some a) (hwa : isWordChar a = true)
    (h1 : t[t.length - 1]? = some b) (hwb : isWordChar b = true) :
    reSearchWB t s = specTermOccurs t s ∧
      reSearchWB "egg".data "egg".data = true ∧
      reSearchWB "egg".data "egg yolk".data = true ∧
      reSearchWB "egg".data "eggplant".data = false :=
  ⟨reSearchWB_eq_spec h0 hwa h1 hwb, by decide, by decide, by decide⟩

/-- Witness for C4 (amended): the equivalence instantiated at the term "egg"
and the ingredient "fried egg". -/
theorem word_boundary_match_spec_witness :
    reSearchWB "egg".data "fried egg".data =
      specTermOccurs "egg".data "fried egg".data :=
  (word_boundary_match_spec "egg".data "fried egg".data 'e' 'g'
    (by decide) (by decide) (by decide) (by decide)).1

/-- Claim C5 (AND-of-ORs): when the tokenized term list is non-empty, a recipe
is in the final result iff it survived the categorical and numeric passes and
every search term matches at least one of its ingredients. -/
theorem recommend_recipes_and_of_ors (df : List Recipe) (sc sm sd : String)
    (minP maxP minC maxC : Int) (q : String) (r : Recipe) (h : tokenize q ≠ []) :
    r ∈ recommend_recipes df sc sm sd minP maxP minC maxC q ↔
      r ∈ timeFilter (catFilter df sc sm sd) minP maxP minC maxC ∧
        ∀ t ∈ tokenize q, ∃ ing ∈ r.ingredients_list, reSearchWB t ing.data = true :=
  mem_recommend_ing h

/-- Witness for C5: the equivalence instantiated at recipe B and the query
"chicken, garlic". -/
theorem recommend_recipes_and_of_ors_witness :
    recipeB ∈ recommend_recipes [recipeA, recipeB, recipeC] "Any" "Any" "Any"
        0 60 0 60 "chicken, garlic" ↔
      recipeB ∈ timeFilter (catFilter [recipeA, recipeB, recipeC] "Any" "Any" "Any")
          0 60 0 60 ∧
        ∀ t ∈ tokenize "chicken, garlic", ∃ ing ∈ recipeB.ingredients_list,
          reSearchWB t ing.data = true :=
  recommend_recipes_and_of_ors [recipeA, recipeB, recipeC] "Any" "Any" "Any"
    0 60 0 60 "chicken, garlic" recipeB (by decide)

/-- Claim C6 (numeric range semantics): the numeric pass keeps exactly the
recipes whose prep and cook times lie within the inclusive bounds, and a
criteria with min greater than max in either dimension yields an empty result
(the embedding is total, so no error is raised). -/
theorem timeFilter_range_spec (df : List Recipe) (sc sm sd : String)
    (minP maxP minC maxC : Int) (q : String) (r : Recipe) :
    (r ∈ timeFilter df minP maxP minC maxC ↔
        r ∈ df ∧ minP ≤ r.prep_time_minutes ∧ r.prep_time_minutes ≤ maxP ∧
          minC ≤ r.cook_time_minutes ∧ r.cook_time_minutes ≤ maxC) ∧
      (maxP < minP → recommend_recipes df sc sm sd minP maxP minC maxC q = []) ∧
      (maxC < minC → recommend_recipes df sc sm sd minP maxP minC maxC q = []) := by
  refine ⟨mem_timeFilter, ?_, ?_⟩ <;> intro hlt
  all_goals
    have htf : timeFilter (catFilter df sc sm sd) minP maxP minC maxC = [] := by
      apply List.filter_eq_nil_iff.mpr
      intro a ha
      simp only [Bool.and_eq_true, decide_eq_true_eq]
      omega
  all_goals
    unfold recommend_recipes
    rw [htf]
    exact ingFilter_nil q

/-- Witness for C6: with minimum prep time 60 and maximum prep time 0 the
filter returns no recipes. -/
theorem timeFilter_range_spec_witness :
    (0 : Int) < 60 ∧
      recommend_recipes [recipeA] "Any" "Any" "Any" 60 0 0 60 "" = [] :=
  ⟨by decide,
    (timeFilter_range_spec [recipeA] "Any" "Any" "Any" 60 0 0 60 "" recipeA).2.1
      (by decide)⟩

/-- Claim C7 (distinct_values postcondition): `get_unique_values` returns
exactly ["Any"] on the empty collection; in general its head is "Any" and its
tail is the sorted, duplicate-free list of the values observed in the chosen
field; on the Italian/Mexican/Italian collection it returns
["Any", "Italian", "Mexican"]. -/
theorem get_unique_values_spec (df : List Recipe) (col : Recipe → String) :
    get_unique_values [] col = ["Any"] ∧
      (get_unique_values df col).head? = some "Any" ∧
      List.Sorted strRel (get_unique_values df col).tail ∧
      (get_unique_values df col).tail.Nodup ∧
      (∀ x, x ∈ (get_unique_values df col).tail ↔ x ∈ df.map col) ∧
      get_unique_values [recipeA, recipeB, recipeC] Recipe.cuisine =
        ["Any", "Italian", "Mexican"] := by
  refine ⟨rfl, ?_, ?_, ?_, ?_, by decide⟩
  · unfold get_unique_values
    split <;> rfl
  · unfold get_unique_values
    split
    · exact List.sorted_insertionSort strRel _
    · exact List.sorted_nil
  · unfold get_unique_values
    split
    · exact ((List.perm_insertionSort strRel _).nodup_iff).mpr (List.nodup_dedup _)
    · exact List.nodup_nil
  · intro x
    cases df with
    | nil => simp [get_unique_values]
    | cons a l => simp [get_unique_values, List.mem_insertionSort, List.mem_dedup]

/-- Claim C8 (pick_random contract): on the empty collection `pick_random`
produces nothing (the handler only warns), and on a non-empty collection it
returns exactly one recipe that belongs to the collection, whatever the
random draw. -/
theorem pick_random_spec (df : List Recipe) (k : Nat) (h : df ≠ []) :
    pick_random [] k = none ∧ ∃ r, pick_random df k = some r ∧ r ∈ df := by
  refine ⟨rfl, ?_⟩
  unfold pick_random
  rw [if_neg (by simp [h])]
  have hlen : 0 < df.length := List.length_pos.mpr h
  have hk : k % df.length < df.length := Nat.mod_lt _ hlen
  exact ⟨df[k % df.length], List.getElem?_eq_getElem hk, List.getElem_mem hk⟩

/-- Witness for C8: a draw from the two-recipe collection. -/
theorem pick_random_spec_witness :
    pick_random [] 2 = none ∧
      ∃ r, pick_random [recipeA, recipeB] 2 = some r ∧ r ∈ [recipeA, recipeB] :=
  pick_random_spec [recipeA, recipeB] 2 (by decide)

/-- Claim C9 (degenerate ingredient query): a non-empty query that tokenizes
to zero terms (only commas and whitespace) leaves the result identical to the
empty-query result — the ingredient pass is skipped, not "match nothing". -/
theorem recommend_recipes_degenerate_query (df : List Recipe) (sc sm sd : String)
    (minP maxP minC maxC : Int) (q : String) (h : tokenize q = []) :
    recommend_recipes df sc sm sd minP maxP minC maxC q =
      recommend_recipes df sc sm sd minP maxP minC maxC "" := by
  unfold recommend_recipes ingFilter
  by_cases hq : q = ""
  · rw [hq]
  · rw [if_pos hq, if_neg (by simp), condFilter_false (by simp [h])]

/-- Witness for C9: the query " , ," of only commas and whitespace behaves
like the empty query. -/
theorem recommend_recipes_degenerate_query_witness :
    recommend_recipes [recipeA, recipeB, recipeC] "Any" "Any" "Any" 0 60 0 60 " , ," =
      recommend_recipes [recipeA, recipeB, recipeC] "Any" "Any" "Any" 0 60 0 60 "" :=
  recommend_recipes_degenerate_query [recipeA, recipeB, recipeC] "Any" "Any" "Any"
    0 60 0 60 " , ," (by decide)

/-- Claim C10 (empty ingredient list): a recipe whose normalized ingredient
list is empty is excluded from the result whenever the query tokenizes to at
least one term — the per-term disjunction over zero ingredients is vacuously
false. -/
theorem empty_ingredients_excluded (df : List Recipe) (sc sm sd : String)
    (minP maxP minC maxC : Int) (q : String) (r : Recipe)
    (hr : r.ingredients_list = []) (hq : tokenize q ≠ []) :
    r ∉ recommend_recipes df sc sm sd minP maxP minC maxC q := by
  intro hmem
  obtain ⟨-, hall⟩ := (mem_recommend_ing hq).mp hmem
  obtain ⟨t, ts, hts⟩ : ∃ t ts, tokenize q = t :: ts := by
    cases htk : tokenize q with
    | nil => exact absurd htk hq
    | cons t ts => exact ⟨t, ts, rfl⟩
  obtain ⟨ing, hing, -⟩ := hall t (by rw [hts]; exact List.mem_cons_self t ts)
  rw [hr] at hing
  exact absurd hing (List.not_mem_nil ing)

/-- Witness for C10: the ingredient-less recipe D is excluded by the query
"egg" although it passes every other filter. -/
theorem empty_ingredients_excluded_witness :
    recipeD ∉ recommend_recipes [recipeA, recipeD] "Any" "Any" "Any" 0 60 0 60 "egg" :=
  empty_ingredients_excluded [recipeA, recipeD] "Any" "Any" "Any" 0 60 0 60 "egg"
    recipeD (by decide) (by decide)
